import Mathlib

/-!
# Verification of the Team-Yuon/server retrieval-augmented chat core

Shallow embedding of the core algorithms of the repository:

* internal/rag/service/chatbot.go — deduplicateAndRank, Chat,
  ProjectVectors, vectorMagnitude, projectTo2D;
* the websocket handler (internal/http) — Handle, handleAppendMessage,
  splitString, and the search-flag / topK defaulting rules;
* the http chatbot handler — the flag defaulting applied before Chat;
* the in-memory ConversationStore — Append / History / End.

Go float64 scores and vector coordinates are modelled as ℚ (the embedded
code paths only use ordering and field operations), Go int as ℤ, Go
strings and runes as Lean String / List Char.  Fallible external calls
(embedding provider, vector index, full-text index, language model) are
oracle parameters of type Except String _.  A Go panic (negative slice
bound, ragged matrix indexing) is modelled by an Option result being
none.
-/

namespace Yuon

/-- Metadata maps (Go map[string]interface) are only ever copied by the
embedded code, never inspected; an association list is a faithful
carrier. -/
abbrev Metadata := List (String × String)

/-- Model of rag.Document from internal/rag/types.go (the fields the core
reads). -/
structure Document where
  id : String
  content : String
  metadata : Metadata
  score : ℚ
  deriving DecidableEq, Repr

/-- Model of rag.ChatMessage from internal/rag/types.go. -/
structure ChatMessage where
  role : String
  content : String
  deriving DecidableEq, Repr

/-- Model of rag.ChatRequest from internal/rag/types.go. -/
structure ChatRequest where
  message : String
  conversationId : String
  useVectorSearch : Bool
  useFullText : Bool
  topK : Int
  history : List ChatMessage
  deriving DecidableEq, Repr

/-- Model of rag.ChatResponse from internal/rag/types.go. -/
structure ChatResponse where
  answer : String
  conversationId : String
  sources : List Document
  tokensUsed : Int
  deriving DecidableEq, Repr

/-!
## deduplicateAndRank (chatbot.go)

```go
func (s *ChatbotService) deduplicateAndRank(docs []rag.Document, topK int) []rag.Document {
    seen := make(map[string]bool)
    var unique []rag.Document
    for _, doc := range docs {
        if !seen[doc.ID] {
            seen[doc.ID] = true
            unique = append(unique, doc)
        }
    }
    for i := 0; i < len(unique)-1; i++ {
        for j := i + 1; j < len(unique); j++ {
            if unique[i].Score < unique[j].Score {
                unique[i], unique[j] = unique[j], unique[i]
            }
        }
    }
    if len(unique) > topK {
        unique = unique[:topK]
    }
    return unique
}
```
-/

/-- The deduplication loop of deduplicateAndRank: `seen` is the set of
ids already kept, and each document whose id is unseen is appended. -/
def dedupGo (seen : List String) : List Document → List Document
  | [] => []
  | d :: ds =>
    if d.id ∈ seen then dedupGo seen ds
    else d :: dedupGo (d.id :: seen) ds

/-- Deduplicate by document id, keeping the first occurrence (the `seen`
map starts empty). -/
def dedupById (docs : List Document) : List Document :=
  dedupGo [] docs

/-- One run of the inner `j` loop of the sort in deduplicateAndRank, for
a fixed outer index `i`: `c` is the current value at index `i`, the list
argument is the tail `unique` from index `i+1` on.  At each `j`, if the
value at `i` has smaller score than the value at `j` the two entries are
swapped: the carried value `c` lands at position `j` and the element
found there is carried onwards.  Returns the final value left at index
`i` together with the rewritten tail. -/
def bubble (c : Document) : List Document → Document × List Document
  | [] => (c, [])
  | y :: ys =>
    if c.score < y.score then
      let p := bubble y ys
      (p.1, c :: p.2)
    else
      let p := bubble c ys
      (p.1, y :: p.2)

/-- The double loop of deduplicateAndRank, with the list length as
(exactly sufficient) structural fuel: outer iteration `i` runs the inner
loop on the suffix starting at `i` (rendered by `bubble`), fixes the
resulting value at position `i`, and recurses on the rewritten tail;
later iterations never touch positions `≤ i`. -/
def selSortFuel : Nat → List Document → List Document
  | 0, l => l
  | _ + 1, [] => []
  | n + 1, x :: xs =>
    let p := bubble x xs
    p.1 :: selSortFuel n p.2

/-- The score-descending sort of deduplicateAndRank (`bubble` preserves
list length, so fuel `l.length` always suffices). -/
def selSort (l : List Document) : List Document :=
  selSortFuel l.length l

/-- deduplicateAndRank.  Go's `unique[:topK]` panics when topK is
negative (the guard `len(unique) > topK` always holds then, and a slice
with a negative high bound is a runtime fault); the panic is modelled as
`none`. -/
def deduplicateAndRank (docs : List Document) (topK : Int) : Option (List Document) :=
  if ((selSort (dedupById docs)).length : Int) > topK then
    if topK < 0 then none
    else some ((selSort (dedupById docs)).take topK.toNat)
  else some (selSort (dedupById docs))

/-!
## The synchronous Chat operation (chatbot.go)

The external collaborators reached from Chat are the embedding provider
(llm.GenerateEmbedding), the vector store (vectorStore.Search), the
full-text index (fullText.Search) and the language model (llm.Chat);
they are modelled as an oracle record.
-/

deriving instance DecidableEq for Except

/-- Oracle for the external calls made during a chat turn. -/
structure ChatEnv where
  embed : String → Except String (List ℚ)
  vectorSearch : List ℚ → Int → Except String (List Document)
  fullTextSearch : String → Int → Except String (List Document)
  llmChat : List ChatMessage → List Document → Except String (String × Int)

/-- searchByVector: the query is embedded first, then the vector store is
queried; an embedding failure is itself a vector-source failure. -/
def searchByVector (env : ChatEnv) (query : String) (topK : Int) :
    Except String (List Document) :=
  match env.embed query with
  | .error e => .error e
  | .ok v => env.vectorSearch v topK

/-- The topK defaulting at the top of Chat: `if req.TopK == 0 { req.TopK = 5 }`. -/
def effectiveTopK (k : Int) : Int := if k = 0 then 5 else k

/-- The retrieval phase of Chat: each enabled source is queried with the
effective topK; a failing source is logged and contributes the empty
list; the two result lists are concatenated (vector hits first). -/
def retrievedDocs (env : ChatEnv) (req : ChatRequest) : List Document :=
  let k := effectiveTopK req.topK
  let vectorDocs :=
    if req.useVectorSearch then
      match searchByVector env req.message k with
      | .error _ => []
      | .ok ds => ds
    else []
  let fullTextDocs :=
    if req.useFullText then
      match env.fullTextSearch req.message k with
      | .error _ => []
      | .ok ds => ds
    else []
  vectorDocs ++ fullTextDocs

/-- The message sequence handed to the language model: the request
history followed by the new user message. -/
def chatMessages (req : ChatRequest) : List ChatMessage :=
  req.history ++ [⟨"user", req.message⟩]

/-- ChatbotService.Chat.  The retrieval results are fused by
deduplicateAndRank (whose panic on negative topK propagates, hence the
Option), then the language model is called; only a language-model
failure is returned as an error. -/
def Chat (env : ChatEnv) (req : ChatRequest) : Option (Except String ChatResponse) :=
  match deduplicateAndRank (retrievedDocs env req) (effectiveTopK req.topK) with
  | none => none
  | some docs =>
    match env.llmChat (chatMessages req) docs with
    | .error e => some (.error ("LLM 응답 생성 실패: " ++ e))
    | .ok answer =>
      some (.ok ⟨answer.1, req.conversationId, docs, answer.2⟩)

/-- The flag defaulting of the http ChatbotHandler.Chat: if both search
flags are false they are both forced true before the service is called. -/
def httpNormalizeFlags (req : ChatRequest) : ChatRequest :=
  if !req.useVectorSearch && !req.useFullText then
    { req with useVectorSearch := true, useFullText := true }
  else req

/-- The http chat endpoint: flag defaulting, then the service Chat. -/
def httpChat (env : ChatEnv) (req : ChatRequest) : Option (Except String ChatResponse) :=
  Chat env (httpNormalizeFlags req)

/-!
## The in-memory ConversationStore (service package)

Histories are a map from conversation id to an ordered message list; the
service-level wrappers ConversationHistory / AppendConversationMessage /
CloseConversation additionally treat the empty id as a no-op.
-/

/-- The histories map of ConversationStore (absent key = empty history,
matching Go map zero values; History on an empty entry returns nil, which
is the same observable value as the empty list). -/
def ConvStore := String → List ChatMessage

/-- A fresh ConversationStore: no histories. -/
def ConvStore.empty : ConvStore := fun _ => []

/-- ConversationStore.Append. -/
def ConvStore.append (st : ConvStore) (id : String) (msg : ChatMessage) : ConvStore :=
  fun c => if c = id then st c ++ [msg] else st c

/-- ConversationStore.History (the Go copy and the original are equal as
values; the model has no shared mutation). -/
def ConvStore.history (st : ConvStore) (id : String) : List ChatMessage := st id

/-- ConversationStore.End: the history for the id is discarded. -/
def ConvStore.close (st : ConvStore) (id : String) : ConvStore :=
  fun c => if c = id then [] else st c

/-- ChatbotService.ConversationHistory: empty id yields nil. -/
def serviceHistory (st : ConvStore) (id : String) : List ChatMessage :=
  if id = "" then [] else st.history id

/-- ChatbotService.AppendConversationMessage: empty id is a no-op. -/
def serviceAppend (st : ConvStore) (id : String) (msg : ChatMessage) : ConvStore :=
  if id = "" then st else st.append id msg

/-- ChatbotService.CloseConversation: empty id is a no-op. -/
def serviceClose (st : ConvStore) (id : String) : ConvStore :=
  if id = "" then st else st.close id

/-!
## The websocket streaming protocol handler

The handler loop reads envelopes, dispatches on the event type, and never
terminates the connection for turn-level failures.  Note that the loop
carries no clock and no counter: there is no rate limiting of any kind in
the source, although the repository's API guide documents a limit of five
append_message events per second per connection.
-/

/-- Server-to-client events written by the websocket handler. -/
inductive WsEvent where
  | messageAck (conversationId messageId : String)
  | streamChunk (conversationId messageId : String) (chunk : String) (index : Nat)
  | streamEnd (conversationId messageId : String) (answer : String)
      (sources : List Document) (tokensUsed : Int)
  | systemNotice (conversationId : String) (message : String)
  | error (message : String)
  deriving DecidableEq, Repr

/-- Recognizer for error events. -/
def WsEvent.isError : WsEvent → Bool
  | .error _ => true
  | _ => false

/-- Recognizer for message_ack events. -/
def WsEvent.isAck : WsEvent → Bool
  | .messageAck _ _ => true
  | _ => false

/-- Recognizer for stream_end events. -/
def WsEvent.isStreamEnd : WsEvent → Bool
  | .streamEnd _ _ _ _ _ => true
  | _ => false

/-- The append_message payload (Go zero values: an absent string field is
"", absent optional booleans are nil = `none`, absent topK is 0, absent
history is nil = `[]`). -/
structure AppendMessagePayload where
  conversationId : String
  messageId : String
  message : String
  useVectorSearch : Option Bool
  useFullText : Option Bool
  topK : Int
  history : List ChatMessage
  deriving DecidableEq, Repr

/-- The search-flag resolution inside handleAppendMessage: both default
to true, an explicit boolean overrides the default, and if both resolve
to false they are forced back to true. -/
def resolveWsFlags (useVectorSearch useFullText : Option Bool) : Bool × Bool :=
  let v := useVectorSearch.getD true
  let f := useFullText.getD true
  if !v && !f then (true, true) else (v, f)

/-- The conversation id used by a turn: generated fresh when absent. -/
def wsConvId (p : AppendMessagePayload) (freshConvId : String) : String :=
  if p.conversationId = "" then freshConvId else p.conversationId

/-- The message id used by a turn: generated fresh when absent. -/
def wsMsgId (p : AppendMessagePayload) (freshMsgId : String) : String :=
  if p.messageId = "" then freshMsgId else p.messageId

/-- The ChatRequest built by handleAppendMessage: resolved flags, the
server-held session history with any inline payload history appended,
and the payload topK passed through unchanged. -/
def wsRequest (st : ConvStore) (p : AppendMessagePayload) (freshConvId : String) :
    ChatRequest :=
  let flags := resolveWsFlags p.useVectorSearch p.useFullText
  let existingHistory :=
    let h := serviceHistory st (wsConvId p freshConvId)
    if p.history.length > 0 then h ++ p.history else h
  { message := p.message
    conversationId := wsConvId p freshConvId
    useVectorSearch := flags.1
    useFullText := flags.2
    topK := p.topK
    history := existingHistory }

/-!
### splitString (websocket handler)

```go
func splitString(text string, size int) []string {
    if size <= 0 { size = 200 }
    runes := []rune(text)
    if len(runes) == 0 { return []string{""} }
    if len(runes) <= size { return []string{text} }
    var chunks []string
    for start := 0; start < len(runes); start += size {
        end := start + size
        if end > len(runes) { end = len(runes) }
        chunks = append(chunks, string(runes[start:end]))
    }
    return chunks
}
```
-/

/-- The chunking loop of splitString, with (exactly sufficient) fuel:
each step takes `size` runes and recurses on the remainder. -/
def chunkListFuel (size : Nat) : Nat → List Char → List (List Char)
  | 0, _ => []
  | _ + 1, [] => []
  | n + 1, l => l.take size :: chunkListFuel size n (l.drop size)

/-- The chunking loop of splitString (each step removes at least one
rune when `1 ≤ size`, so fuel `l.length` suffices). -/
def chunkList (size : Nat) (l : List Char) : List (List Char) :=
  chunkListFuel size l.length l

/-- splitString.  Runes of a Go string are the `List Char` underlying a
Lean string. -/
def splitString (text : String) (size : Int) : List String :=
  let size := if size ≤ 0 then 200 else size
  let runes := text.data
  if runes.length = 0 then [""]
  else if (runes.length : Int) ≤ size then [text]
  else (chunkList size.toNat runes).map (fun cs => String.mk cs)

/-!
### handleAppendMessage (websocket handler)

The turn: reject an empty message with an error event; assign missing
ids; write message_ack; resolve flags; build the combined request; run
Chat; on failure write an error event and stop (no history change); on
success append the user message, write one stream_chunk per
200-rune chunk of the answer with indices from 0, write stream_end, then
append the assistant message.
-/

/-- handleAppendMessage: returns the events written on the connection in
order together with the updated session store, or `none` when the inner
Chat call panics (negative payload topK). -/
def handleAppendMessage (env : ChatEnv) (freshConvId freshMsgId : String)
    (st : ConvStore) (p : AppendMessagePayload) :
    Option (List WsEvent × ConvStore) :=
  if p.message = "" then some ([.error "message 필드는 필수입니다"], st)
  else
    let convId := wsConvId p freshConvId
    let msgId := wsMsgId p freshMsgId
    let ack := WsEvent.messageAck convId msgId
    match Chat env (wsRequest st p freshConvId) with
    | none => none
    | some (.error _) => some ([ack, .error "응답 생성에 실패했습니다"], st)
    | some (.ok resp) =>
      let st1 := serviceAppend st convId ⟨"user", p.message⟩
      let chunks := splitString resp.answer 200
      let chunkEvents := chunks.enum.map
        (fun ic => WsEvent.streamChunk resp.conversationId msgId ic.2 ic.1)
      let events := ack :: chunkEvents ++
        [WsEvent.streamEnd resp.conversationId msgId resp.answer resp.sources resp.tokensUsed]
      let st2 := serviceAppend st1 convId ⟨"assistant", resp.answer⟩
      some (events, st2)

/-- Decoded client events as dispatched by the Handle read loop
(malformed = an envelope that fails to decode, unknownType = an envelope
whose type string matches no case). -/
inductive ClientEvent where
  | startConversation (conversationId : String)
  | appendMessage (p : AppendMessagePayload)
  | typing (conversationId : String)
  | endConversation (conversationId : String)
  | malformed
  | unknownType
  deriving Repr

/-- handleStartConversation: assign an id if absent, emit system_notice. -/
def handleStartConversation (freshConvId : String) (conversationId : String) :
    List WsEvent :=
  let convId := if conversationId = "" then freshConvId else conversationId
  [.systemNotice convId "conversation_started"]

/-- handleTyping: acknowledge with a system_notice, no state change. -/
def handleTyping (conversationId : String) : List WsEvent :=
  [.systemNotice conversationId "typing 이벤트가 수신되었습니다"]

/-- handleEndConversation: discard the server-held history, emit
system_notice. -/
def handleEndConversation (st : ConvStore) (conversationId : String) :
    List WsEvent × ConvStore :=
  ([.systemNotice conversationId "conversation_closed"], serviceClose st conversationId)

/-- One iteration of the Handle read loop: dispatch on the decoded event.
Observe that the dispatch depends only on the event and the store — the
loop keeps no clock, no counter and no rate-limit state. -/
def handleEnvelope (env : ChatEnv) (fresh : String × String) (st : ConvStore) :
    ClientEvent → Option (List WsEvent × ConvStore)
  | .malformed => some ([.error "잘못된 메시지 형식입니다"], st)
  | .unknownType => some ([.error "알 수 없는 이벤트 타입입니다"], st)
  | .startConversation cid => some (handleStartConversation fresh.1 cid, st)
  | .typing cid => some (handleTyping cid, st)
  | .endConversation cid => some (handleEndConversation st cid)
  | .appendMessage p => handleAppendMessage env fresh.1 fresh.2 st p

/-- The Handle read loop over a finite inbound event sequence, threading
the session store and concatenating the written events.  The list of
fresh id pairs stands in for the uuid generator (`none` when it runs out,
a model artifact never reached in the concrete runs below). -/
def runConn (env : ChatEnv) :
    List (String × String) → ConvStore → List ClientEvent →
    Option (List WsEvent × ConvStore)
  | _, st, [] => some ([], st)
  | [], _, _ :: _ => none
  | fresh :: restFresh, st, e :: es =>
    match handleEnvelope env fresh st e with
    | none => none
    | some (evs, st') =>
      match runConn env restFresh st' es with
      | none => none
      | some (evs', st'') => some (evs ++ evs', st'')

/-!
## ProjectVectors (chatbot.go)

QueryDocumentVectors is an external read (Qdrant scroll); the claims are
about the processing of an already-fetched batch, so the batch is the
input here.  The gonum SVD is an external factorization: it is an oracle
parameter — `none` models a failed Factorize (the raw-coordinate
fallback), `some v` the returned right-singular-vector matrix V.
math.Sqrt has no ℚ counterpart, so the square-root function is likewise
an explicit parameter; every magnitude statement is relative to it.
-/

/-- Model of rag.DocumentVector. -/
structure DocumentVector where
  id : String
  vector : List ℚ
  content : String
  metadata : Metadata
  deriving DecidableEq, Repr

/-- Model of rag.ProjectedVector. -/
structure ProjectedVector where
  id : String
  x : ℚ
  y : ℚ
  content : String
  metadata : Metadata
  magnitude : ℚ
  deriving DecidableEq, Repr

/-- Sum of squares of a vector's entries. -/
def sumSq (v : List ℚ) : ℚ := (v.map (fun x => x * x)).sum

/-- vectorMagnitude: math.Sqrt of the sum of squared entries, i.e. the
Euclidean norm, relative to the given square-root function. -/
def vectorMagnitude (sqrt : ℚ → ℚ) (v : List ℚ) : ℚ := sqrt (sumSq v)

/-- Dot product (used for the matrix product with the projection basis). -/
def dot (a b : List ℚ) : ℚ := ((a.zip b).map (fun p => p.1 * p.2)).sum

/-- projectTo2D.  Faithful to the source: per-dimension means over the
rows, centering, then either the projection onto the first `targetDims`
columns of V (SVD success) or the first one or two raw uncentered
coordinates per row (factorization failure).  Ragged input — a row whose
length differs from the first row's — makes the Go code index out of
range (means loop for longer rows, centering loop for shorter rows), as
does a V matrix narrower than `targetDims` (the Slice call); both panics
are `none`. -/
def projectTo2D (svdV : Option (List (List ℚ))) (points : List (List ℚ)) :
    Option (List (ℚ × ℚ)) :=
  let rows := points.length
  if rows = 0 then some []
  else
    let cols := points.headI.length
    if cols = 0 then some []
    else if points.any (fun p => p.length ≠ cols) then none
    else
      let means : List ℚ :=
        (List.range cols).map (fun j => (points.map (fun p => p.getD j 0)).sum / (rows : ℚ))
      let centered : List (List ℚ) :=
        points.map (fun p => (List.range cols).map (fun j => p.getD j 0 - means.getD j 0))
      let targetDims := if cols < 2 then 1 else 2
      match svdV with
      | none =>
        some (points.map (fun p => (p.getD 0 0, if cols = 1 then 0 else p.getD 1 0)))
      | some v =>
        if v.length < cols ∨ (v.take cols).any (fun row => row.length < targetDims) then none
        else
          some (centered.map (fun row =>
            (dot row ((v.take cols).map (fun vr => vr.getD 0 0)),
             if targetDims = 2 then dot row ((v.take cols).map (fun vr => vr.getD 1 0))
             else 0)))

/-- The output point built for a fetched vector and its projected
coordinates: id, content and metadata are copied from the vector, the
magnitude is the Euclidean norm of the original (uncentered) embedding. -/
def mkProjected (sqrt : ℚ → ℚ) (v : DocumentVector) (c : ℚ × ℚ) : ProjectedVector :=
  ⟨v.id, c.1, c.2, v.content, v.metadata, vectorMagnitude sqrt v.vector⟩

/-- The inner `for idx < len … idx++` advance of the pairing loop of
ProjectVectors: skip fetched vectors whose embedding is empty. -/
def dropEmptyVectors : List DocumentVector → List DocumentVector :=
  List.dropWhile (fun v => v.vector.isEmpty)

/-- The pairing loop at the end of ProjectVectors: walk the projection
rows, for each advancing the vector cursor past empty-embedding vectors,
and emit one ProjectedVector per pair (the cursor position is carried as
the remaining vector suffix). -/
def alignLoop (sqrt : ℚ → ℚ) :
    List (ℚ × ℚ) → List DocumentVector → List ProjectedVector
  | [], _ => []
  | c :: cs, vs =>
    match dropEmptyVectors vs with
    | [] => []
    | v :: rest => mkProjected sqrt v c :: alignLoop sqrt cs rest

/-- ChatbotService.ProjectVectors on a fetched batch: empty batches and
all-empty batches return the empty result; otherwise the non-empty
embeddings are projected and paired back with their vectors in order. -/
def ProjectVectors (sqrt : ℚ → ℚ) (svdV : Option (List (List ℚ)))
    (vectors : List DocumentVector) : Option (List ProjectedVector) :=
  if vectors.isEmpty then some []
  else
    let points := vectors.filterMap
      (fun v => if v.vector.isEmpty then none else some v.vector)
    if points.isEmpty then some []
    else
      match projectTo2D svdV points with
      | none => none
      | some projection => some (alignLoop sqrt projection vectors)

/-- Shape condition on the SVD oracle output making the V Slice in
projectTo2D well defined (gonum guarantees it for a successful thin SVD
of a matrix with at least `targetDims` rows and columns). -/
def svdShapeOk (svdV : Option (List (List ℚ))) (cols : Nat) : Bool :=
  match svdV with
  | none => true
  | some v =>
    decide (cols ≤ v.length) &&
      (v.take cols).all (fun row => decide ((if cols < 2 then 1 else 2) ≤ row.length))


/-! ## Concrete inputs used by counterexamples and witnesses -/


/-- Concrete candidate: id d1, score 1. -/
def wd1 : Document := ⟨"d1", "first", [], 1⟩

/-- Concrete candidate: id d2, score 3. -/
def wd2 : Document := ⟨"d2", "second", [], 3⟩

/-- Concrete candidate repeating id d1 with a different score. -/
def wd3 : Document := ⟨"d1", "dup", [], 5⟩

/-- Equal-score document a(2) for the stability counterexample. -/
def cexDocA : Document := ⟨"a", "", [], 2⟩

/-- Equal-score document b(2) for the stability counterexample. -/
def cexDocB : Document := ⟨"b", "", [], 2⟩

/-- Higher-score document c(3) for the stability counterexample. -/
def cexDocC : Document := ⟨"c", "", [], 3⟩

/-- The stability counterexample input: distinct ids, scores 2, 2, 3. -/
def cexInput : List Document := [cexDocA, cexDocB, cexDocC]

/-- Tie stability of an output list relative to an input list: any two
equal-score output documents appear in the same relative order as in the
input. -/
abbrev tieStable (inp out : List Document) : Prop :=
  ∀ d ∈ out, ∀ e ∈ out, d.score = e.score →
    inp.indexOf d < inp.indexOf e → out.indexOf d < out.indexOf e


/-- An oracle under which every external call succeeds: the embedding is
a one-dimensional vector, both retrieval sources return no documents,
and the language model answers hello with 7 tokens. -/
def envOk : ChatEnv :=
  { embed := fun _ => .ok [1]
    vectorSearch := fun _ _ => .ok []
    fullTextSearch := fun _ _ => .ok []
    llmChat := fun _ _ => .ok ("hello", 7) }

/-- An oracle whose language-model call always fails. -/
def envLlmFail : ChatEnv :=
  { embed := fun _ => .ok [1]
    vectorSearch := fun _ _ => .ok []
    fullTextSearch := fun _ _ => .ok []
    llmChat := fun _ _ => .error "boom" }

/-- A concrete well-formed append_message payload (message hi). -/
def wsPayloadHi : AppendMessagePayload :=
  { conversationId := "conv-1"
    messageId := "msg-1"
    message := "hi"
    useVectorSearch := none
    useFullText := none
    topK := 0
    history := [] }

/-- The response produced by envOk for any request with conversation id
conv-1. -/
def respHi : ChatResponse :=
  { answer := "hello", conversationId := "conv-1", sources := [], tokensUsed := 7 }

/-- Six identical valid append_message envelopes, as sent within one
second on one connection.  The Handle loop carries no clock or counter,
so the model needs no timestamps: the handler treats every arrival rate
identically. -/
def sixAppends : List ClientEvent :=
  List.replicate 6 (ClientEvent.appendMessage wsPayloadHi)

/-- A fresh-id supply covering six turns. -/
def freshSupply : List (String × String) :=
  [("c1", "m1"), ("c2", "m2"), ("c3", "m3"), ("c4", "m4"), ("c5", "m5"), ("c6", "m6")]

/-- An oracle under which both retrieval sources fail (the embedding
provider is down, blocking vector search, and the full-text index
errors) while the language model succeeds. -/
def envBothFail : ChatEnv :=
  { embed := fun _ => .error "embedding down"
    vectorSearch := fun _ _ => .ok []
    fullTextSearch := fun _ _ => .error "opensearch down"
    llmChat := fun _ _ => .ok ("fallback answer", 2) }

/-- A concrete chat request with both sources enabled and default topK. -/
def reqHello : ChatRequest :=
  { message := "hello"
    conversationId := "c"
    useVectorSearch := true
    useFullText := true
    topK := 0
    history := [] }

/-- Concrete fetched batch for the projection witness: two non-empty
two-dimensional vectors around one empty vector. -/
def vecBatch : List DocumentVector :=
  [⟨"a", [1, 2], "ca", []⟩, ⟨"b", [], "cb", []⟩, ⟨"c", [3, 4], "cc", []⟩]

/-- A batch with exactly one non-empty vector, of dimension 2. -/
def oneVecBatch : List DocumentVector :=
  [⟨"only", [1, 2], "c", []⟩]

/-- The V matrix a successful thin SVD returns for the one-row two-column
centered matrix of oneVecBatch: cols × min(rows, cols) = 2 × 1, so two
rows of one entry each — too narrow for the two-column Slice taken in
projectTo2D. -/
def svdVOneCol : List (List ℚ) := [[1], [0]]


end Yuon

namespace Yuon

/-! ## Lemmas: the fusion sort and deduplication -/

theorem bubble_snd_length (c : Document) (l : List Document) :
    (bubble c l).2.length = l.length := by
  induction l generalizing c with
  | nil => simp [bubble]
  | cons y ys ih =>
    by_cases h : c.score < y.score <;> simp [bubble, h, ih]

theorem bubble_perm (c : Document) (l : List Document) :
    List.Perm ((bubble c l).1 :: (bubble c l).2) (c :: l) := by
  induction l generalizing c with
  | nil => simp [bubble]
  | cons y ys ih =>
    by_cases h : c.score < y.score
    · simp only [bubble, if_pos h]
      exact (List.Perm.swap c (bubble y ys).1 (bubble y ys).2).trans ((ih y).cons c)
    · simp only [bubble, if_neg h]
      exact (List.Perm.swap y (bubble c ys).1 (bubble c ys).2).trans
        (((ih c).cons y).trans (List.Perm.swap c y ys))

theorem le_bubble_fst (c : Document) (l : List Document) :
    c.score ≤ (bubble c l).1.score := by
  induction l generalizing c with
  | nil => simp [bubble]
  | cons y ys ih =>
    by_cases h : c.score < y.score
    · simp only [bubble, if_pos h]
      exact le_of_lt (lt_of_lt_of_le h (ih y))
    · simp only [bubble, if_neg h]
      exact ih c

theorem bubble_snd_le (c : Document) (l : List Document) :
    ∀ z ∈ (bubble c l).2, z.score ≤ (bubble c l).1.score := by
  induction l generalizing c with
  | nil => simp [bubble]
  | cons y ys ih =>
    intro z hz
    by_cases h : c.score < y.score
    · simp only [bubble, if_pos h] at hz ⊢
      rcases List.mem_cons.mp hz with rfl | hz'
      · exact le_of_lt (lt_of_lt_of_le h (le_bubble_fst y ys))
      · exact ih y z hz'
    · simp only [bubble, if_neg h] at hz ⊢
      rcases List.mem_cons.mp hz with rfl | hz'
      · exact le_trans (le_of_not_lt h) (le_bubble_fst c ys)
      · exact ih c z hz'

theorem selSortFuel_perm (n : Nat) (l : List Document) (h : l.length ≤ n) :
    List.Perm (selSortFuel n l) l := by
  induction n generalizing l with
  | zero => simp [selSortFuel]
  | succ n ih =>
    cases l with
    | nil => simp [selSortFuel]
    | cons x xs =>
      simp only [selSortFuel]
      have h2 : (bubble x xs).2.length ≤ n := by
        rw [bubble_snd_length]
        simpa using h
      exact ((ih _ h2).cons (bubble x xs).1).trans (bubble_perm x xs)

theorem selSortFuel_sorted (n : Nat) (l : List Document) (h : l.length ≤ n) :
    (selSortFuel n l).Pairwise (fun a b => b.score ≤ a.score) := by
  induction n generalizing l with
  | zero =>
    cases l with
    | nil => simp [selSortFuel]
    | cons x xs => simp at h
  | succ n ih =>
    cases l with
    | nil => simp [selSortFuel]
    | cons x xs =>
      simp only [selSortFuel]
      have h2 : (bubble x xs).2.length ≤ n := by
        rw [bubble_snd_length]
        simpa using h
      refine List.pairwise_cons.mpr ⟨?_, ih _ h2⟩
      intro y hy
      have hmem : y ∈ (bubble x xs).2 := (selSortFuel_perm n _ h2).mem_iff.mp hy
      exact bubble_snd_le x xs y hmem

theorem selSort_perm (l : List Document) : List.Perm (selSort l) l :=
  selSortFuel_perm _ _ le_rfl

theorem selSort_sorted (l : List Document) :
    (selSort l).Pairwise (fun a b => b.score ≤ a.score) :=
  selSortFuel_sorted _ _ le_rfl

theorem dedupGo_ids (seen : List String) (l : List Document) :
    ((dedupGo seen l).map (fun d => d.id)).Nodup ∧
      ∀ d ∈ dedupGo seen l, d.id ∉ seen := by
  induction l generalizing seen with
  | nil => simp [dedupGo]
  | cons d ds ih =>
    by_cases h : d.id ∈ seen
    · simp only [dedupGo, if_pos h]
      exact ih seen
    · simp only [dedupGo, if_neg h]
      obtain ⟨hn, hm⟩ := ih (d.id :: seen)
      refine ⟨?_, ?_⟩
      · simp only [List.map_cons, List.nodup_cons]
        refine ⟨?_, hn⟩
        intro hmem
        obtain ⟨e, he, heq⟩ := List.mem_map.mp hmem
        exact (hm e he) (by rw [heq]; exact List.mem_cons_self _ _)
      · intro e he
        rcases List.mem_cons.mp he with rfl | he'
        · exact h
        · intro hc
          exact (hm e he') (List.mem_cons_of_mem _ hc)

theorem dedupGo_find (seen : List String) (l : List Document) :
    ∀ d ∈ dedupGo seen l, l.find? (fun e => e.id == d.id) = some d := by
  induction l generalizing seen with
  | nil => simp [dedupGo]
  | cons e ds ih =>
    intro d hd
    by_cases h : e.id ∈ seen
    · simp only [dedupGo, if_pos h] at hd
      have hnotseen := (dedupGo_ids seen ds).2 d hd
      have hne : (e.id == d.id) = false := by
        simp only [beq_eq_false_iff_ne]
        rintro heq
        exact hnotseen (heq ▸ h)
      rw [List.find?_cons_of_neg _ (by simp [hne]), ih seen d hd]
    · simp only [dedupGo, if_neg h] at hd
      rcases List.mem_cons.mp hd with rfl | hd'
      · rw [List.find?_cons_of_pos _ (by simp)]
      · have hnotseen := (dedupGo_ids (e.id :: seen) ds).2 d hd'
        have hne : (e.id == d.id) = false := by
          simp only [beq_eq_false_iff_ne]
          rintro heq
          exact hnotseen (heq ▸ List.mem_cons_self _ _)
        rw [List.find?_cons_of_neg _ (by simp [hne]), ih (e.id :: seen) d hd']

theorem deduplicateAndRank_eq_none_iff (docs : List Document) (k : Int) :
    deduplicateAndRank docs k = none ↔ k < 0 := by
  unfold deduplicateAndRank
  by_cases hk : k < 0
  · rw [if_pos (by have := Int.natCast_nonneg (selSort (dedupById docs)).length; omega),
      if_pos hk]
    simp [hk]
  · by_cases hlen : (((selSort (dedupById docs)).length : Int)) > k
    · rw [if_pos hlen, if_neg hk]
      simp [hk]
    · rw [if_neg hlen]
      simp [hk]

theorem effectiveTopK_neg_iff (k : Int) : effectiveTopK k < 0 ↔ k < 0 := by
  unfold effectiveTopK
  split <;> omega

theorem Chat_eq_none_iff (env : ChatEnv) (req : ChatRequest) :
    Chat env req = none ↔ req.topK < 0 := by
  have h := deduplicateAndRank_eq_none_iff (retrievedDocs env req) (effectiveTopK req.topK)
  rw [effectiveTopK_neg_iff] at h
  unfold Chat
  cases hdd : deduplicateAndRank (retrievedDocs env req) (effectiveTopK req.topK) with
  | none =>
    exact iff_of_true rfl (h.mp hdd)
  | some docs =>
    have hk : ¬ req.topK < 0 := fun hneg => by
      rw [h.mpr hneg] at hdd
      exact Option.noConfusion hdd
    rcases hllm : env.llmChat (chatMessages req) docs with e | a <;> simp [hllm, hk]

end Yuon

namespace Yuon

/-! ## Claim theorems: retrieval fusion -/

/-- C1: for every candidate list and every topK ≥ 1, deduplicateAndRank
succeeds, its result has pairwise-distinct document ids — each element
being the first occurrence of its id in the input — it has length at
most topK, and its scores are non-increasing from first to last. -/
theorem c1_fused_output_contract (docs : List Document) (k : Int) (hk : 1 ≤ k) :
    ∃ out, deduplicateAndRank docs k = some out ∧
      (out.map (fun d => d.id)).Nodup ∧
      (out.length : Int) ≤ k ∧
      out.Pairwise (fun a b => b.score ≤ a.score) ∧
      ∀ d ∈ out, docs.find? (fun e => e.id == d.id) = some d := by
  have hk0 : ¬ k < 0 := by omega
  have hperm := selSort_perm (dedupById docs)
  have hsorted := selSort_sorted (dedupById docs)
  have hids : ((dedupById docs).map (fun d => d.id)).Nodup := (dedupGo_ids [] docs).1
  have hiu : ((selSort (dedupById docs)).map (fun d => d.id)).Nodup :=
    ((hperm.map (fun d => d.id)).nodup_iff).mpr hids
  have hfind : ∀ d ∈ selSort (dedupById docs),
      docs.find? (fun e => e.id == d.id) = some d :=
    fun d hd => dedupGo_find [] docs d (hperm.mem_iff.mp hd)
  unfold deduplicateAndRank
  by_cases hlen : ((selSort (dedupById docs)).length : Int) > k
  · rw [if_pos hlen, if_neg hk0]
    refine ⟨_, rfl, ?_, ?_, ?_, ?_⟩
    · rw [List.map_take]
      exact (List.take_sublist _ _).nodup hiu
    · rw [List.length_take]
      have h1 : (k.toNat : Int) = k := Int.toNat_of_nonneg (by omega)
      have h2 : k.toNat ⊓ (selSort (dedupById docs)).length ≤ k.toNat := inf_le_left
      exact le_trans (by exact_mod_cast h2) (le_of_eq h1)
    · exact List.Pairwise.sublist (List.take_sublist _ _) hsorted
    · intro d hd
      exact hfind d (List.Sublist.mem hd (List.take_sublist _ _))
  · rw [if_neg hlen]
    exact ⟨_, rfl, hiu, by omega, hsorted, hfind⟩

/-- Witness for C1: three candidates with a duplicated id and topK 2. -/
theorem c1_fused_output_contract_witness :
    (1 : Int) ≤ 2 ∧
    (∃ out, deduplicateAndRank [wd1, wd2, wd3] 2 = some out ∧
      (out.map (fun d => d.id)).Nodup ∧
      (out.length : Int) ≤ 2 ∧
      out.Pairwise (fun a b => b.score ≤ a.score) ∧
      ∀ d ∈ out, [wd1, wd2, wd3].find? (fun e => e.id == d.id) = some d) :=
  ⟨by decide, c1_fused_output_contract [wd1, wd2, wd3] 2 (by decide)⟩

/-- C2 counterexample: on candidates a(2), b(2), c(3) — pairwise
distinct ids, so the deduplicated list is the input itself — the fused
output is [c, b, a]: the equal-score documents a and b appear in the
reverse of their input order, so the fusion sort is not stable on
ties. -/
theorem c2_counterexample :
    deduplicateAndRank cexInput 3 = some [cexDocC, cexDocB, cexDocA] ∧
    cexDocA.score = cexDocB.score ∧
    ¬ tieStable cexInput [cexDocC, cexDocB, cexDocA] :=
  ⟨by decide, by decide, by decide⟩

/-- C2 amended: for every candidate list and topK ≥ 0 the fused result
is the exchange-sorted deduplicated list truncated to topK, and the
sorted list is a permutation of the deduplicated list (no document is
lost or invented by the sort); the sort is however not stable on ties —
see the counterexample. -/
theorem c2_amended_sort_permutes (docs : List Document) (k : Int) (hk : 0 ≤ k) :
    ∃ out, deduplicateAndRank docs k = some out ∧
      out = (selSort (dedupById docs)).take k.toNat ∧
      List.Perm (selSort (dedupById docs)) (dedupById docs) := by
  have hk0 : ¬ k < 0 := by omega
  unfold deduplicateAndRank
  by_cases hlen : ((selSort (dedupById docs)).length : Int) > k
  · rw [if_pos hlen, if_neg hk0]
    exact ⟨_, rfl, rfl, selSort_perm _⟩
  · rw [if_neg hlen]
    exact ⟨_, rfl, (List.take_of_length_le (by omega)).symm, selSort_perm _⟩

/-- Witness for the amended C2 at the counterexample input. -/
theorem c2_amended_sort_permutes_witness :
    (0 : Int) ≤ 3 ∧
    (∃ out, deduplicateAndRank cexInput 3 = some out ∧
      out = (selSort (dedupById cexInput)).take (3 : Int).toNat ∧
      List.Perm (selSort (dedupById cexInput)) (dedupById cexInput)) :=
  ⟨by decide, c2_amended_sort_permutes cexInput 3 (by decide)⟩

/-- C10: deduplicateAndRank faults exactly on a negative topK (the
truncation slice is taken with a negative bound), and the synchronous
Chat — which normalizes only topK = 0 to 5 — faults exactly on a
negative request topK: the fault is reachable from a caller-supplied
negative topK and unreachable when topK ≥ 0. -/
theorem c10_negative_topk_faults (docs : List Document) (k : Int)
    (env : ChatEnv) (req : ChatRequest) :
    (deduplicateAndRank docs k = none ↔ k < 0) ∧
    (Chat env req = none ↔ req.topK < 0) :=
  ⟨deduplicateAndRank_eq_none_iff docs k, Chat_eq_none_iff env req⟩

end Yuon

namespace Yuon

/-! ## Claim theorem: topK and search-flag defaulting -/

/-- C8: Chat treats a zero topK exactly as topK 5 (the only topK
normalization, applied before retrieval); the http handler forces both
search flags true when both are false and otherwise leaves them alone,
so at least one retrieval source is always consulted; the websocket
flag resolution defaults absent flags to true, lets explicit booleans
override the default, forces the both-false combination back to true,
and always leaves at least one source enabled. -/
theorem c8_defaulting (env : ChatEnv) (req : ChatRequest) (k : Int) (uv uf : Option Bool) :
    Chat env { req with topK := 0 } = Chat env { req with topK := 5 } ∧
    effectiveTopK 0 = 5 ∧
    (k = 0 ∨ effectiveTopK k = k) ∧
    httpNormalizeFlags { req with useVectorSearch := false, useFullText := false }
      = { req with useVectorSearch := true, useFullText := true } ∧
    ((httpNormalizeFlags req).useVectorSearch || (httpNormalizeFlags req).useFullText) = true ∧
    resolveWsFlags none none = (true, true) ∧
    resolveWsFlags (some false) (some false) = (true, true) ∧
    resolveWsFlags (some true) (some false) = (true, false) ∧
    resolveWsFlags (some false) (some true) = (false, true) ∧
    resolveWsFlags (some true) (some true) = (true, true) ∧
    ((resolveWsFlags uv uf).1 || (resolveWsFlags uv uf).2) = true := by
  refine ⟨?_, rfl, ?_, ?_, ?_, rfl, rfl, rfl, rfl, rfl, ?_⟩
  · have h50 : effectiveTopK 0 = effectiveTopK 5 := by decide
    simp only [Chat, retrievedDocs, chatMessages, h50]
  · rcases eq_or_ne k 0 with rfl | h
    · exact Or.inl rfl
    · exact Or.inr (by simp [effectiveTopK, h])
  · simp [httpNormalizeFlags]
  · cases hv : req.useVectorSearch <;> cases hf : req.useFullText <;>
      simp [httpNormalizeFlags, hv, hf]
  · rcases uv with _ | v
    · rcases uf with _ | f
      · rfl
      · cases f <;> rfl
    · rcases uf with _ | f
      · cases v <;> rfl
      · cases v <;> cases f <;> rfl

end Yuon

namespace Yuon

/-! ## Lemmas: answer chunking -/

theorem chunkListFuel_flatten (size : Nat) (hsize : 1 ≤ size) :
    ∀ (n : Nat) (l : List Char), l.length ≤ n → (chunkListFuel size n l).flatten = l := by
  intro n
  induction n with
  | zero =>
    intro l h
    cases l with
    | nil => simp [chunkListFuel]
    | cons c cs => simp at h
  | succ n ih =>
    intro l h
    cases l with
    | nil => simp [chunkListFuel]
    | cons c cs =>
      simp only [chunkListFuel, List.flatten_cons]
      rw [ih ((c :: cs).drop size) (by simp at h ⊢; omega)]
      exact List.take_append_drop size (c :: cs)

theorem chunkListFuel_length (size : Nat) (hsize : 1 ≤ size) :
    ∀ (n : Nat) (l : List Char), l.length ≤ n →
      (chunkListFuel size n l).length = (l.length + size - 1) / size := by
  intro n
  induction n with
  | zero =>
    intro l h
    cases l with
    | nil =>
      simp only [chunkListFuel, List.length_nil]
      rw [Nat.div_eq_of_lt (by omega)]
    | cons c cs => simp at h
  | succ n ih =>
    intro l h
    cases l with
    | nil =>
      simp only [chunkListFuel, List.length_nil]
      rw [Nat.div_eq_of_lt (by omega)]
    | cons c cs =>
      simp only [chunkListFuel, List.length_cons]
      rw [ih ((c :: cs).drop size) (by simp at h ⊢; omega), List.length_drop]
      simp only [List.length_cons]
      by_cases hls : cs.length + 1 ≤ size
      · rw [show cs.length + 1 - size + size - 1 = size - 1 by omega,
          show cs.length + 1 + size - 1 = (cs.length + 1 - 1) + size by omega,
          Nat.add_div_right _ (by omega),
          Nat.div_eq_of_lt (show size - 1 < size by omega),
          Nat.div_eq_of_lt (show cs.length + 1 - 1 < size by omega)]
      · rw [show cs.length + 1 - size + size - 1 = cs.length + 1 - 1 by omega,
          show cs.length + 1 + size - 1 = (cs.length + 1 - 1) + size by omega,
          Nat.add_div_right _ (by omega)]

theorem chunkListFuel_chunk_le (size : Nat) :
    ∀ (n : Nat) (l : List Char) (c : List Char),
      c ∈ chunkListFuel size n l → c.length ≤ size := by
  intro n
  induction n with
  | zero =>
    intro l c hc
    simp [chunkListFuel] at hc
  | succ n ih =>
    intro l c hc
    cases l with
    | nil => simp [chunkListFuel] at hc
    | cons x xs =>
      simp only [chunkListFuel, List.mem_cons] at hc
      rcases hc with rfl | hc
      · exact List.length_take_le size (x :: xs)
      · exact ih _ _ hc

theorem chunkListFuel_ne_nil (size : Nat) (n : Nat) (l : List Char)
    (hn : 1 ≤ n) (hl : l ≠ []) : chunkListFuel size n l ≠ [] := by
  cases n with
  | zero => omega
  | succ n =>
    cases l with
    | nil => exact absurd rfl hl
    | cons c cs => simp [chunkListFuel]

theorem chunkListFuel_dropLast (size : Nat) (hsize : 1 ≤ size) :
    ∀ (n : Nat) (l : List Char), l.length ≤ n →
      (chunkListFuel size n l).dropLast.map (fun c => c.length) =
        List.replicate ((chunkListFuel size n l).length - 1) size := by
  intro n
  induction n with
  | zero =>
    intro l h
    cases l with
    | nil => simp [chunkListFuel]
    | cons c cs => simp at h
  | succ n ih =>
    intro l h
    cases l with
    | nil => simp [chunkListFuel]
    | cons c cs =>
      simp only [List.length_cons] at h
      by_cases hls : cs.length + 1 ≤ size
      · have hdrop : (c :: cs).drop size = [] := by
          rw [List.drop_eq_nil_iff]
          simpa using hls
        simp only [chunkListFuel, hdrop]
        cases n with
        | zero => simp [chunkListFuel]
        | succ n => simp [chunkListFuel]
      · have hdl : ((c :: cs).drop size).length = cs.length + 1 - size := by
          rw [List.length_drop]
          simp
        have hd1 : 1 ≤ ((c :: cs).drop size).length := by omega
        have hfuel : ((c :: cs).drop size).length ≤ n := by omega
        have hdrop_ne : (c :: cs).drop size ≠ [] := by
          intro hnil
          rw [hnil] at hd1
          simp at hd1
        have hrec_ne : chunkListFuel size n ((c :: cs).drop size) ≠ [] :=
          chunkListFuel_ne_nil size n _ (le_trans hd1 hfuel) hdrop_ne
        obtain ⟨r, rs, hr⟩ := List.exists_cons_of_ne_nil hrec_ne
        have htake : ((c :: cs).take size).length = size := by
          rw [List.length_take]
          simp only [List.length_cons]
          omega
        have hih := ih ((c :: cs).drop size) hfuel
        rw [hr] at hih
        simp only [List.length_cons] at hih
        simp only [chunkListFuel, hr, List.dropLast_cons₂, List.map_cons, List.length_cons]
        rw [htake, hih]
        rw [show rs.length + 1 - 1 = rs.length by omega,
          show rs.length + 1 + 1 - 1 = rs.length + 1 by omega,
          List.replicate_succ]

theorem string_foldl_mk (ls : List (List Char)) (acc : List Char) :
    (ls.map (fun cs => String.mk cs)).foldl (fun a b => a ++ b) (String.mk acc)
      = String.mk (acc ++ ls.flatten) := by
  induction ls generalizing acc with
  | nil => simp
  | cons c cs ih =>
    simp only [List.map_cons, List.foldl_cons]
    have happ : String.mk acc ++ String.mk c = String.mk (acc ++ c) := rfl
    rw [happ, ih]
    simp

theorem string_join_mk (ls : List (List Char)) :
    String.join (ls.map (fun cs => String.mk cs)) = String.mk ls.flatten := by
  have h := string_foldl_mk ls []
  simpa [String.join] using h

end Yuon

namespace Yuon

/-! ## Claim theorem: answer chunking -/

/-- C4: splitString with chunk size 200 yields ceil(L/200) chunks for a
rune length L > 0 (here written (L + 199) / 200) and exactly one — empty
— chunk for L = 0; every chunk has at most 200 runes, every chunk except
possibly the last has exactly 200 runes, and the concatenation of the
chunks in order is the original answer. -/
theorem c4_chunking (text : String) :
    (splitString text 200).length =
      (if text.data.length = 0 then 1 else (text.data.length + 199) / 200) ∧
    ((splitString text 200).map (fun s => s.data.length)).all
      (fun n => decide (n ≤ 200)) = true ∧
    (splitString text 200).dropLast.map (fun s => s.data.length) =
      List.replicate ((splitString text 200).length - 1) 200 ∧
    String.join (splitString text 200) = text := by
  have hred : splitString text 200 =
      (if text.data.length = 0 then [""]
       else if (text.data.length : Int) ≤ 200 then [text]
       else (chunkList 200 text.data).map (fun cs => String.mk cs)) := by
    simp only [splitString]
    norm_num [show ((200 : Int)).toNat = 200 from rfl]
  by_cases h0 : text.data.length = 0
  · have htext : text = "" := by
      have hdata : text.data = [] := List.length_eq_zero.mp h0
      cases text with
      | mk data =>
        simp only at hdata
        rw [hdata]
    subst htext
    exact ⟨by decide, by decide, by decide, by decide⟩
  · by_cases h1 : (text.data.length : Int) ≤ 200
    · rw [hred, if_neg h0, if_pos h1]
      have hL : 1 ≤ text.data.length := Nat.pos_of_ne_zero h0
      have hL2 : text.data.length ≤ 200 := by exact_mod_cast h1
      refine ⟨?_, ?_, ?_, ?_⟩
      · simp only [List.length_singleton, if_neg h0]
        rw [show text.data.length + 199 = (text.data.length - 1) + 200 by omega,
          Nat.add_div_right _ (by omega), Nat.div_eq_of_lt (by omega)]
      · simp only [List.map_cons, List.map_nil, List.all_cons, List.all_nil, Bool.and_true]
        exact decide_eq_true hL2
      · simp
      · simp [String.join]
    · rw [hred, if_neg h0, if_neg h1]
      have hL : 200 < text.data.length := by
        by_contra hc
        exact h1 (by exact_mod_cast not_lt.mp hc)
      have hflen : (chunkList 200 text.data).length = (text.data.length + 199) / 200 :=
        chunkListFuel_length 200 (by omega) text.data.length text.data le_rfl
      have hmapdata :
          ((chunkList 200 text.data).map (fun cs => String.mk cs)).map
            (fun s => s.data.length) = (chunkList 200 text.data).map (fun c => c.length) := by
        rw [List.map_map]
        rfl
      refine ⟨?_, ?_, ?_, ?_⟩
      · rw [List.length_map, hflen, if_neg h0]
      · rw [hmapdata, List.all_eq_true]
        intro x hx
        obtain ⟨c, hc, rfl⟩ := List.mem_map.mp hx
        exact decide_eq_true (chunkListFuel_chunk_le 200 text.data.length text.data c hc)
      · rw [← List.map_dropLast, List.map_map]
        have hcomp :
            ((fun s => s.data.length) ∘ (fun cs => String.mk cs)) =
              (fun c : List Char => c.length) := rfl
        rw [hcomp]
        simp only [chunkList]
        rw [chunkListFuel_dropLast 200 (by omega) text.data.length text.data le_rfl,
          List.length_map, chunkListFuel_length 200 (by omega) text.data.length text.data le_rfl]
      · rw [string_join_mk]
        simp only [chunkList]
        rw [chunkListFuel_flatten 200 (by omega) text.data.length text.data le_rfl]

end Yuon

namespace Yuon

/-! ## Lemmas and claim theorems: the streaming turn -/

theorem Chat_ok_conversationId (env : ChatEnv) (req : ChatRequest) (resp : ChatResponse)
    (h : Chat env req = some (.ok resp)) : resp.conversationId = req.conversationId := by
  unfold Chat at h
  rcases hdd : deduplicateAndRank (retrievedDocs env req) (effectiveTopK req.topK)
    with _ | docs
  · rw [hdd] at h
    simp at h
  · rw [hdd] at h
    rcases hllm : env.llmChat (chatMessages req) docs with e | a
    · exact absurd h (by simp [hllm])
    · simp only [hllm, Option.some.injEq, Except.ok.injEq] at h
      rw [← h]

/-- C7: when the orchestrator call inside an append_message turn fails,
the turn emits exactly the already-written message_ack followed by one
error event and stops, and the session store is returned unchanged:
neither the user's inbound message nor any assistant message is
appended. -/
theorem c7_failed_turn_preserves_history (env : ChatEnv) (f1 f2 : String)
    (st : ConvStore) (p : AppendMessagePayload) (e : String)
    (hmsg : p.message ≠ "")
    (hchat : Chat env (wsRequest st p f1) = some (.error e)) :
    handleAppendMessage env f1 f2 st p =
      some ([WsEvent.messageAck (wsConvId p f1) (wsMsgId p f2),
        WsEvent.error "응답 생성에 실패했습니다"], st) := by
  simp only [handleAppendMessage, if_neg hmsg, hchat]

/-- Witness for C7: the language model fails, the store is untouched. -/
theorem c7_failed_turn_preserves_history_witness :
    wsPayloadHi.message ≠ "" ∧
    Chat envLlmFail (wsRequest ConvStore.empty wsPayloadHi "cid-f")
      = some (.error "LLM 응답 생성 실패: boom") ∧
    handleAppendMessage envLlmFail "cid-f" "mid-f" ConvStore.empty wsPayloadHi =
      some ([WsEvent.messageAck (wsConvId wsPayloadHi "cid-f") (wsMsgId wsPayloadHi "mid-f"),
        WsEvent.error "응답 생성에 실패했습니다"], ConvStore.empty) :=
  ⟨by decide, by decide,
    c7_failed_turn_preserves_history envLlmFail "cid-f" "mid-f" ConvStore.empty wsPayloadHi
      "LLM 응답 생성 실패: boom" (by decide) (by decide)⟩

/-- C5: on a successful append_message turn the events written are
exactly one message_ack first, then one stream_chunk per 200-rune
answer chunk with indices 0..N-1 in increasing order, then exactly one
stream_end, in that order, all carrying the turn's conversation id and
message id (the response's conversation id equals the request's); the
store receives the user and then the assistant message. -/
theorem c5_success_event_sequence (env : ChatEnv) (f1 f2 : String)
    (st : ConvStore) (p : AppendMessagePayload) (resp : ChatResponse)
    (hmsg : p.message ≠ "")
    (hchat : Chat env (wsRequest st p f1) = some (.ok resp)) :
    ∃ events,
      handleAppendMessage env f1 f2 st p =
        some (events,
          serviceAppend (serviceAppend st (wsConvId p f1) ⟨"user", p.message⟩)
            (wsConvId p f1) ⟨"assistant", resp.answer⟩) ∧
      events = WsEvent.messageAck (wsConvId p f1) (wsMsgId p f2) ::
        ((splitString resp.answer 200).enum.map
          (fun ic => WsEvent.streamChunk (wsConvId p f1) (wsMsgId p f2) ic.2 ic.1) ++
        [WsEvent.streamEnd (wsConvId p f1) (wsMsgId p f2) resp.answer
          resp.sources resp.tokensUsed]) ∧
      resp.conversationId = wsConvId p f1 ∧
      (splitString resp.answer 200).enum.map (fun ic => ic.1) =
        List.range (splitString resp.answer 200).length ∧
      events.countP WsEvent.isAck = 1 ∧
      events.countP WsEvent.isStreamEnd = 1 := by
  have hconv : resp.conversationId = wsConvId p f1 := Chat_ok_conversationId env _ resp hchat
  refine ⟨_, ?_, rfl, hconv, ?_, ?_, ?_⟩
  · simp only [handleAppendMessage, if_neg hmsg, hchat, hconv, List.cons_append]
  · exact List.enum_map_fst (splitString resp.answer 200)
  · simp only [List.countP_cons, List.countP_append]
    rw [List.countP_eq_zero.mpr]
    · simp [WsEvent.isAck, List.countP_cons]
    · intro ev hev
      obtain ⟨ic, hic, rfl⟩ := List.mem_map.mp hev
      simp [WsEvent.isAck]
  · simp only [List.countP_cons, List.countP_append]
    rw [List.countP_eq_zero.mpr]
    · simp [WsEvent.isStreamEnd, List.countP_cons]
    · intro ev hev
      obtain ⟨ic, hic, rfl⟩ := List.mem_map.mp hev
      simp [WsEvent.isStreamEnd]

/-- Witness for C5: a successful hi turn with answer hello (one chunk). -/
theorem c5_success_event_sequence_witness :
    wsPayloadHi.message ≠ "" ∧
    Chat envOk (wsRequest ConvStore.empty wsPayloadHi "cid-f") = some (.ok respHi) ∧
    (∃ events,
      handleAppendMessage envOk "cid-f" "mid-f" ConvStore.empty wsPayloadHi =
        some (events,
          serviceAppend
            (serviceAppend ConvStore.empty (wsConvId wsPayloadHi "cid-f")
              ⟨"user", wsPayloadHi.message⟩)
            (wsConvId wsPayloadHi "cid-f") ⟨"assistant", respHi.answer⟩) ∧
      events = WsEvent.messageAck (wsConvId wsPayloadHi "cid-f") (wsMsgId wsPayloadHi "mid-f") ::
        ((splitString respHi.answer 200).enum.map
          (fun ic => WsEvent.streamChunk (wsConvId wsPayloadHi "cid-f")
            (wsMsgId wsPayloadHi "mid-f") ic.2 ic.1) ++
        [WsEvent.streamEnd (wsConvId wsPayloadHi "cid-f") (wsMsgId wsPayloadHi "mid-f")
          respHi.answer respHi.sources respHi.tokensUsed]) ∧
      respHi.conversationId = wsConvId wsPayloadHi "cid-f" ∧
      (splitString respHi.answer 200).enum.map (fun ic => ic.1) =
        List.range (splitString respHi.answer 200).length ∧
      events.countP WsEvent.isAck = 1 ∧
      events.countP WsEvent.isStreamEnd = 1) :=
  ⟨by decide, by decide,
    c5_success_event_sequence envOk "cid-f" "mid-f" ConvStore.empty wsPayloadHi respHi
      (by decide) (by decide)⟩

end Yuon

namespace Yuon

/-! ## Claim theorem: absence of rate limiting (C3) -/

/-- C3: the websocket handler applies no rate limit.  Running six valid
append_message events through the read loop — however fast they arrive,
since the loop consults no clock — produces zero error events and six
full turns (six message_ack and six stream_end events); in particular
the sixth event is served normally instead of being rejected, contrary
to the five-per-second limit stated by the spec and by the repository's
own API guide. -/
theorem c3_no_rate_limit_six_appends :
    ((runConn envOk freshSupply ConvStore.empty sixAppends).map
      (fun out => (out.1.countP WsEvent.isError, out.1.countP WsEvent.isAck,
        out.1.countP WsEvent.isStreamEnd))) = some (0, 6, 6) := by
  decide

/-! ## Claim theorem: Chat error contract (C6) -/

theorem retrievedDocs_eq_nil_of_both_fail (env : ChatEnv) (req : ChatRequest)
    (hv : ∃ e, searchByVector env req.message (effectiveTopK req.topK) = .error e)
    (hf : ∃ e, env.fullTextSearch req.message (effectiveTopK req.topK) = .error e) :
    retrievedDocs env req = [] := by
  obtain ⟨ev, hv⟩ := hv
  obtain ⟨ef, hf⟩ := hf
  simp only [retrievedDocs, hv, hf]
  cases req.useVectorSearch <;> cases req.useFullText <;> simp

/-- C6: for topK ≥ 0, Chat always returns, and its result is an error
exactly when the language-model call errors: a failure of the vector
source (the embedding call or the vector store — searchByVector turns
an embedding failure into a vector-source failure) or of the full-text
source is absorbed as an empty contribution and never fails Chat, and
when both sources fail the language model is still called with an empty
fused document set. -/
theorem c6_chat_fails_only_on_llm (env : ChatEnv) (req : ChatRequest)
    (hk : 0 ≤ req.topK) :
    ∃ docs, deduplicateAndRank (retrievedDocs env req) (effectiveTopK req.topK) = some docs ∧
      ∃ r, Chat env req = some r ∧
        ((∃ e, r = .error e) ↔ ∃ e, env.llmChat (chatMessages req) docs = .error e) ∧
        (((∃ e, searchByVector env req.message (effectiveTopK req.topK) = .error e) ∧
          (∃ e, env.fullTextSearch req.message (effectiveTopK req.topK) = .error e)) →
          docs = []) := by
  rcases hdd : deduplicateAndRank (retrievedDocs env req) (effectiveTopK req.topK)
    with _ | docs
  · rw [deduplicateAndRank_eq_none_iff, effectiveTopK_neg_iff] at hdd
    omega
  · have hempty :
        ((∃ e, searchByVector env req.message (effectiveTopK req.topK) = .error e) ∧
          (∃ e, env.fullTextSearch req.message (effectiveTopK req.topK) = .error e)) →
          docs = [] := by
      rintro ⟨hv, hf⟩
      have hnil := retrievedDocs_eq_nil_of_both_fail env req hv hf
      rw [hnil] at hdd
      have hsome : deduplicateAndRank [] (effectiveTopK req.topK) = some [] := by
        unfold deduplicateAndRank
        have hsel : selSort (dedupById []) = [] := rfl
        rw [hsel]
        simp only [List.length_nil, Nat.cast_zero]
        rw [if_neg (by have h := effectiveTopK_neg_iff req.topK; omega)]
      rw [hsome] at hdd
      exact (Option.some_inj.mp hdd).symm
    refine ⟨docs, rfl, ?_⟩
    rcases hllm : env.llmChat (chatMessages req) docs with e | a
    · refine ⟨.error ("LLM 응답 생성 실패: " ++ e), ?_, ?_, hempty⟩
      · unfold Chat
        rw [hdd]
        simp [hllm]
      · exact iff_of_true ⟨_, rfl⟩ ⟨e, rfl⟩
    · refine ⟨.ok ⟨a.1, req.conversationId, docs, a.2⟩, ?_, ?_, hempty⟩
      · unfold Chat
        rw [hdd]
        simp [hllm]
      · refine iff_of_false ?_ ?_
        · rintro ⟨e, he⟩
          exact Except.noConfusion he
        · rintro ⟨e, he⟩
          exact Except.noConfusion he

/-- Witness for C6: both sources fail, Chat still succeeds via the
language model on an empty document set. -/
theorem c6_chat_fails_only_on_llm_witness :
    (0 : Int) ≤ reqHello.topK ∧
    (∃ docs, deduplicateAndRank (retrievedDocs envBothFail reqHello)
        (effectiveTopK reqHello.topK) = some docs ∧
      ∃ r, Chat envBothFail reqHello = some r ∧
        ((∃ e, r = .error e) ↔
          ∃ e, envBothFail.llmChat (chatMessages reqHello) docs = .error e) ∧
        (((∃ e, searchByVector envBothFail reqHello.message
            (effectiveTopK reqHello.topK) = .error e) ∧
          (∃ e, envBothFail.fullTextSearch reqHello.message
            (effectiveTopK reqHello.topK) = .error e)) →
          docs = [])) :=
  ⟨by decide, c6_chat_fails_only_on_llm envBothFail reqHello (by decide)⟩

end Yuon

namespace Yuon

/-! ## Lemmas and claim theorem: vector projection (C9) -/

theorem points_eq_filter_map (vectors : List DocumentVector) :
    vectors.filterMap (fun v => if v.vector.isEmpty then none else some v.vector) =
      (vectors.filter (fun v => !v.vector.isEmpty)).map (fun v => v.vector) := by
  induction vectors with
  | nil => rfl
  | cons v vs ih =>
    simp only [List.isEmpty_iff] at ih
    by_cases h : v.vector = [] <;>
      simp [List.filterMap_cons, List.filter_cons, h, ih, List.isEmpty_iff]

theorem filter_eq_dropWhile_cons (vs : List DocumentVector) :
    vs.filter (fun v => !v.vector.isEmpty) =
      (match dropEmptyVectors vs with
       | [] => []
       | v :: rest => v :: rest.filter (fun v => !v.vector.isEmpty)) := by
  induction vs with
  | nil => rfl
  | cons v vs ih =>
    by_cases h : v.vector.isEmpty
    · have hdw : dropEmptyVectors (v :: vs) = dropEmptyVectors vs := by
        simp [dropEmptyVectors, List.dropWhile, h]
      rw [hdw, List.filter_cons]
      simp only [h, Bool.not_true, Bool.false_eq_true, if_false]
      exact ih
    · have hdw : dropEmptyVectors (v :: vs) = v :: vs := by
        simp [dropEmptyVectors, List.dropWhile, h]
      rw [hdw]
      simp [List.filter_cons, h]

theorem alignLoop_eq_zipWith (sqrt : ℚ → ℚ) :
    ∀ (cs : List (ℚ × ℚ)) (vs : List DocumentVector),
      alignLoop sqrt cs vs =
        List.zipWith (mkProjected sqrt) (vs.filter (fun v => !v.vector.isEmpty)) cs := by
  intro cs
  induction cs with
  | nil => intro vs; simp [alignLoop]
  | cons c cs ih =>
    intro vs
    rw [filter_eq_dropWhile_cons]
    cases hdw : dropEmptyVectors vs with
    | nil => simp [alignLoop, hdw]
    | cons v rest =>
      simp only [alignLoop, hdw, List.zipWith_cons_cons]
      rw [ih rest]

theorem map_zipWith_mkProjected (sqrt : ℚ → ℚ) (vs : List DocumentVector)
    (cs : List (ℚ × ℚ)) (h : vs.length ≤ cs.length) :
    (List.zipWith (mkProjected sqrt) vs cs).map
        (fun q => (q.id, q.content, q.metadata, q.magnitude)) =
      vs.map (fun v => (v.id, v.content, v.metadata, vectorMagnitude sqrt v.vector)) := by
  induction vs generalizing cs with
  | nil => simp
  | cons v vs ih =>
    cases cs with
    | nil => simp at h
    | cons c cs =>
      simp only [List.zipWith_cons_cons, List.map_cons, mkProjected]
      rw [ih cs (by simpa using h)]

theorem projectTo2D_some_length (svdV : Option (List (List ℚ))) (points : List (List ℚ))
    (d : Nat) (hd : 1 ≤ d) (hne : points ≠ [])
    (hdim : ∀ p ∈ points, p.length = d)
    (hsvd : svdShapeOk svdV d = true) :
    ∃ proj, projectTo2D svdV points = some proj ∧ proj.length = points.length := by
  obtain ⟨p0, ps, rfl⟩ := List.exists_cons_of_ne_nil hne
  have hp0 : p0.length = d := hdim p0 (List.mem_cons_self _ _)
  have hany : ((p0 :: ps).any fun p => decide (p.length ≠ p0.length)) = false := by
    rw [List.any_eq_false]
    intro p hp
    simp [hdim p hp, hp0]
  cases svdV with
  | none =>
    simp only [projectTo2D, List.headI]
    rw [if_neg (by simp), if_neg (show ¬p0.length = 0 by omega), hany]
    simp only [Bool.false_eq_true, if_false]
    exact ⟨_, rfl, by simp⟩
  | some v =>
    simp only [svdShapeOk, Bool.and_eq_true, decide_eq_true_eq, List.all_eq_true] at hsvd
    simp only [projectTo2D, List.headI]
    rw [if_neg (by simp), if_neg (show ¬p0.length = 0 by omega), hany]
    simp only [Bool.false_eq_true, if_false]
    rw [if_neg ?side]
    case side =>
      simp only [hp0]
      push_neg
      refine ⟨by omega, ?_⟩
      intro hcontra
      rw [List.any_eq_true] at hcontra
      obtain ⟨row, hrow, hlt⟩ := hcontra
      have h2 := hsvd.2 row hrow
      simp only [decide_eq_true_eq] at hlt
      omega
    exact ⟨_, rfl, by simp⟩

/-- C9 counterexample: on a batch with exactly one non-empty vector of
dimension 2 the claim fails.  The centered matrix has a single row, so a
successful thin SVD yields V of shape cols × min(rows, cols) = 2 × 1
(svdVOneCol); the Slice of its first two columns taken in projectTo2D is
then out of range, and the code panics instead of returning the one
ProjectedVector per non-empty input vector that the claim promises for
every batch. -/
theorem c9_counterexample_single_vector :
    (oneVecBatch.filter (fun v => !v.vector.isEmpty)).length = 1 ∧
    ProjectVectors (fun q => q) (some svdVOneCol) oneVecBatch = none :=
  ⟨by decide, by decide⟩

/-- C9 amended: for every fetched batch whose non-empty embeddings share
one dimension d ≥ 1 (Go indexes out of range on ragged batches) and
whose SVD oracle, when the factorization succeeds, is wide enough for
the Slice taken in projectTo2D (svdShapeOk — gonum provides this
whenever at least two non-empty vectors are projected, but not for a
single non-empty vector of dimension ≥ 2, see the counterexample),
ProjectVectors returns exactly one ProjectedPoint per non-empty input
vector, in the input order with empty vectors skipped in place, each
output carrying the id, content and metadata of its vector and the
magnitude sqrt of the sum of squares — the Euclidean norm — of the
original uncentered embedding. -/
theorem c9_projection_alignment (sqrt : ℚ → ℚ) (svdV : Option (List (List ℚ)))
    (vectors : List DocumentVector) (d : Nat) (hd : 1 ≤ d)
    (hdim : ∀ v ∈ vectors, v.vector = [] ∨ v.vector.length = d)
    (hsvd : svdShapeOk svdV d = true) :
    ∃ out, ProjectVectors sqrt svdV vectors = some out ∧
      out.length = (vectors.filter (fun v => !v.vector.isEmpty)).length ∧
      out.map (fun q => (q.id, q.content, q.metadata, q.magnitude)) =
        (vectors.filter (fun v => !v.vector.isEmpty)).map
          (fun v => (v.id, v.content, v.metadata, vectorMagnitude sqrt v.vector)) := by
  by_cases hve : vectors.isEmpty
  · have : vectors = [] := by
      cases vectors
      · rfl
      · simp at hve
    subst this
    exact ⟨[], rfl, rfl, rfl⟩
  · simp only [ProjectVectors, hve, Bool.false_eq_true, if_false]
    rw [points_eq_filter_map]
    by_cases hpe : ((vectors.filter (fun v => !v.vector.isEmpty)).map
        (fun v => v.vector)).isEmpty
    · have hfe : vectors.filter (fun v => !v.vector.isEmpty) = [] := by
        rcases hfil : vectors.filter (fun v => !v.vector.isEmpty) with _ | ⟨w, ws⟩
        · exact hfil
        · rw [hfil] at hpe
          simp at hpe
      rw [hfe]
      simp only [List.map_nil, List.isEmpty_nil, if_pos rfl]
      exact ⟨[], rfl, rfl, rfl⟩
    · rw [if_neg (by simpa using hpe)]
      have hne : (vectors.filter (fun v => !v.vector.isEmpty)).map
          (fun v => v.vector) ≠ [] := by
        intro hnil
        rw [hnil] at hpe
        simp at hpe
      have hdim' : ∀ p ∈ (vectors.filter (fun v => !v.vector.isEmpty)).map
          (fun v => v.vector), p.length = d := by
        intro p hp
        obtain ⟨w, hw, rfl⟩ := List.mem_map.mp hp
        have hwmem := List.mem_of_mem_filter hw
        have hwne : ¬ w.vector.isEmpty := by
          have := List.of_mem_filter hw
          simpa using this
        rcases hdim w hwmem with hnil | hlen
        · rw [hnil] at hwne
          simp at hwne
        · exact hlen
      obtain ⟨proj, hproj, hlen⟩ :=
        projectTo2D_some_length svdV _ d hd hne hdim' hsvd
      rw [hproj]
      rw [List.length_map] at hlen
      refine ⟨_, rfl, ?_, ?_⟩
      · rw [alignLoop_eq_zipWith, List.length_zipWith, hlen]
        simp
      · rw [alignLoop_eq_zipWith]
        exact map_zipWith_mkProjected sqrt _ proj (le_of_eq hlen.symm)

/-- Witness for C9: projecting the concrete batch (failed-SVD fallback
path, identity square root) pairs outputs with the two non-empty
vectors in order. -/
theorem c9_projection_alignment_witness :
    1 ≤ 2 ∧
    (∀ v ∈ vecBatch, v.vector = [] ∨ v.vector.length = 2) ∧
    svdShapeOk none 2 = true ∧
    (∃ out, ProjectVectors (fun q => q) none vecBatch = some out ∧
      out.length = (vecBatch.filter (fun v => !v.vector.isEmpty)).length ∧
      out.map (fun q => (q.id, q.content, q.metadata, q.magnitude)) =
        (vecBatch.filter (fun v => !v.vector.isEmpty)).map
          (fun v => (v.id, v.content, v.metadata, vectorMagnitude (fun q => q) v.vector))) :=
  ⟨by decide, by decide, by decide,
    c9_projection_alignment (fun q => q) none vecBatch 2 (by decide) (by decide) (by decide)⟩

end Yuon
